import Mathlib

set_option maxRecDepth 4000

/-!
Verification development for the repo storage core of rust-ipfs
(`src/repo/mod.rs`).  The Repo orchestrator composes a content-addressed
block store and a key/value data store, emits life-cycle events on block
mutations, and exposes IPNS record operations.  Store calls are embedded as
their observable results during one repo operation (no intervening
mutation); event emission and store mutation order are embedded as explicit
traces.
-/

/-- Modelled from the spec: the crate error type (`crate::error::Error`,
not under `src/`) — every store operation fails with an error; `storage`
covers I/O failures (the payload distinguishes distinct underlying errors)
and `decode` covers malformed stored bytes (unparsable path syntax). -/
inductive Error where
  | storage (code : Nat)
  | decode
deriving DecidableEq

/-- Modelled from the spec: `Cid` (`crate::block`, not under `src/`) — an
immutable fingerprint with stable byte-level encoding; equality is
byte-equality of the encoded fingerprint. -/
structure Cid where
  bytes : List Nat
deriving DecidableEq

/-- Modelled from the spec: `Block` (`crate::block`, not under `src/`) — an
immutable byte payload, the sole unit stored in the block store. -/
structure Block where
  data : List Nat
deriving DecidableEq

/-- Modelled from the spec: the Cid of a block is derived deterministically
from the block's bytes; this derivation is injective, realising the
invariant that a Cid uniquely determines block content. -/
def Block.cid (b : Block) : Cid := ⟨b.data⟩

/-- Modelled from the spec: a peer identifier (`libp2p::PeerId`, an external
collaborator) with a stable binary representation — embedded as its bytes. -/
abbrev PeerId := List Nat

/-- The `Column` enumeration of `src/repo/mod.rs`: logical namespaces of the
data store; a single variant `Ipns` is defined. -/
inductive Column where
  | Ipns
deriving DecidableEq

/-- The `RepoEvent` enumeration of `src/repo/mod.rs`. -/
inductive RepoEvent where
  | WantBlock (c : Cid)
  | ProvideBlock (c : Cid)
  | UnprovideBlock (c : Cid)
deriving DecidableEq

/-- The producing end of the repo's `std::sync::mpsc` event channel,
identified by the channel it belongs to. -/
structure Sender where
  ch : Nat
deriving DecidableEq

/-- The consuming end of the repo's event channel. -/
structure Receiver where
  ch : Nat
deriving DecidableEq

/-- The `channel()` call of `Repo::new`: creates a connected
sender/receiver pair over a fresh channel. -/
def mkchannel (fresh : Nat) : Sender × Receiver := (⟨fresh⟩, ⟨fresh⟩)

/-- The `BlockStore` trait of `src/repo/mod.rs`, embedded as the store's
observable behaviour during one repo operation: the result each trait
method would return.  `new` performs no I/O and is embedded separately in
`Repo.new` as the binding of the store to its path. -/
structure BlockStore where
  initRes : Except Error Unit
  openRes : Except Error Unit
  containsRes : Cid → Except Error Bool
  getRes : Cid → Except Error (Option Block)
  putRes : Block → Except Error Cid
  removeRes : Cid → Except Error Unit

/-- The `DataStore` trait of `src/repo/mod.rs`, embedded like `BlockStore`;
keys are raw bytes under a `Column` namespace. -/
structure DataStore where
  initRes : Except Error Unit
  openRes : Except Error Unit
  containsRes : Column → List Nat → Except Error Bool
  getRes : Column → List Nat → Except Error (Option (List Nat))
  putRes : Column → List Nat → List Nat → Except Error Unit
  removeRes : Column → List Nat → Except Error Unit

/-- A path is a sequence of directory components (`std::path::PathBuf`);
`push` appends one component. -/
abbrev PathBuf := List String

/-- The fields of the `Repo` struct of `src/repo/mod.rs` that `Repo::new`
computes: each store instance is embedded as the path it was bound to by
its `new(path)` call (which performs no I/O), plus the event sender. -/
structure RepoHandle where
  block_store_path : PathBuf
  data_store_path : PathBuf
  events : Sender
deriving DecidableEq

namespace Repo

/-- `Repo::new` of `src/repo/mod.rs`: derives the `"blockstore"` and
`"datastore"` sub-paths from the options path, binds each store to its
sub-path, creates the event channel, and returns the repo together with the
channel's consuming end. -/
def new (path : PathBuf) : RepoHandle × Receiver :=
  let blockstore_path := path ++ ["blockstore"]
  let datastore_path := path ++ ["datastore"]
  let (sender, receiver) := mkchannel 0
  ({ block_store_path := blockstore_path
     data_store_path := datastore_path
     events := sender }, receiver)

/-- `Repo::init` of `src/repo/mod.rs`: awaits both stores' `init` (via
`join!`, so both results are produced) and returns `r1` if `r1.is_err()`,
else `r2`. -/
def init (bs : BlockStore) (ds : DataStore) : Except Error Unit :=
  let r1 := bs.initRes
  let r2 := ds.initRes
  match r1 with
  | .error e => .error e
  | .ok _ => r2

/-- `Repo::open` of `src/repo/mod.rs` (named `openRepo` because `open` is a
Lean keyword): same aggregation as `init`, over the stores' `open`. -/
def openRepo (bs : BlockStore) (ds : DataStore) : Except Error Unit :=
  let r1 := bs.openRes
  let r2 := ds.openRes
  match r1 with
  | .error e => .error e
  | .ok _ => r2

/-- `Repo::put_block` of `src/repo/mod.rs`: stores via the block store
(`?` propagates a failure before any event), then best-effort-emits
`ProvideBlock(cid)` and returns the Cid.  The second component is the list
of events emitted, in order. -/
def put_block (bs : BlockStore) (b : Block) : Except Error Cid × List RepoEvent :=
  match bs.putRes b with
  | .error e => (.error e, [])
  | .ok cid => (.ok cid, [RepoEvent.ProvideBlock cid])

/-- Outcome of a `get_block` call: a resolved block, a propagated store
error, or suspension awaiting local availability that (with no concurrent
mutation) never ends. -/
inductive BlockOutcome where
  | ok (b : Block)
  | err (e : Error)
  | suspended
deriving DecidableEq

/-- Modelled from the spec (§4.4): `BlockFuture` (`crate::future`, not
under `src/`) suspends the task until `contains(cid)` is true and then
returns `get(cid)`.  Evaluated against the store snapshot with no
concurrent mutation: a Cid absent now never arrives, so the wait renders as
`suspended`; a `contains` outcome of true yields the `get` result. -/
def blockFutureAwait (bs : BlockStore) (c : Cid) : BlockOutcome :=
  match bs.containsRes c with
  | .error e => .err e
  | .ok true =>
    match bs.getRes c with
    | .error e => .err e
    | .ok (some b) => .ok b
    | .ok none => .suspended
  | .ok false => .suspended

/-- One run of `get_block`: its outcome, the events emitted in order, and
whether the availability wait (`BlockFuture`, which performs the store
`get`) was reached. -/
structure GetBlockRun where
  outcome : BlockOutcome
  events : List RepoEvent
  awaited : Bool
deriving DecidableEq

/-- `Repo::get_block` of `src/repo/mod.rs`: checks containment (`?`
propagates a store error immediately, before any event or wait); if the
block is absent, best-effort-emits `WantBlock(cid)`; then awaits the
availability primitive. -/
def get_block (bs : BlockStore) (c : Cid) : GetBlockRun :=
  match bs.containsRes c with
  | .error e => ⟨.err e, [], false⟩
  | .ok true => ⟨blockFutureAwait bs c, [], true⟩
  | .ok false => ⟨blockFutureAwait bs c, [RepoEvent.WantBlock c], true⟩

/-- One step of a `remove_block` run: an event send or the block-store
removal call. -/
inductive TraceStep where
  | sendEvent (e : RepoEvent)
  | storeRemove (c : Cid)
deriving DecidableEq

/-- `Repo::remove_block` of `src/repo/mod.rs`: unconditionally
best-effort-emits `UnprovideBlock(cid)` and then issues the store removal,
whose result is returned.  The second component is the ordered trace of the
run. -/
def remove_block (bs : BlockStore) (c : Cid) : Except Error Unit × List TraceStep :=
  (bs.removeRes c,
   [TraceStep.sendEvent (RepoEvent.UnprovideBlock c), TraceStep.storeRemove c])

end Repo

/-- A Unicode scalar value, the content of a Rust `char`: below `0x110000`
and not a surrogate.  Rust strings are sequences of scalar values, embedded
here as `List Nat`. -/
def ScalarValue (c : Nat) : Prop := c < 0x110000 ∧ (c < 0xD800 ∨ 0xE000 ≤ c)

instance (c : Nat) : Decidable (ScalarValue c) := by
  unfold ScalarValue; infer_instance

/-- The Unicode replacement character U+FFFD substituted by
`String::from_utf8_lossy` for invalid byte sequences. -/
def REPLACEMENT : Nat := 0xFFFD

/-- UTF-8 encoding of one scalar value (Rust `char::encode_utf8`). -/
def encodeChar (c : Nat) : List Nat :=
  if c ≤ 0x7F then [c]
  else if c ≤ 0x7FF then [0xC0 + c / 0x40, 0x80 + c % 0x40]
  else if c ≤ 0xFFFF then
    [0xE0 + c / 0x1000, 0x80 + c / 0x40 % 0x40, 0x80 + c % 0x40]
  else
    [0xF0 + c / 0x40000, 0x80 + c / 0x1000 % 0x40, 0x80 + c / 0x40 % 0x40,
     0x80 + c % 0x40]

/-- UTF-8 encoding of a string (Rust `str::as_bytes` of a built string). -/
def encodeUtf8 (s : List Nat) : List Nat := (s.map encodeChar).flatten

/-- Whether a byte is a UTF-8 continuation byte (`0x80..=0xBF`). -/
def isCont (b : Nat) : Bool := decide (0x80 ≤ b ∧ b ≤ 0xBF)

/-- The admissible second byte of a multi-byte UTF-8 sequence, which
depends on the lead byte (excluding overlong encodings and surrogates, as
Rust's UTF-8 validation does). -/
def validFollow (b b1 : Nat) : Bool :=
  if b = 0xE0 then decide (0xA0 ≤ b1 ∧ b1 ≤ 0xBF)
  else if b = 0xED then decide (0x80 ≤ b1 ∧ b1 ≤ 0x9F)
  else if b = 0xF0 then decide (0x90 ≤ b1 ∧ b1 ≤ 0xBF)
  else if b = 0xF4 then decide (0x80 ≤ b1 ∧ b1 ≤ 0x8F)
  else isCont b1

/-- Continuation of a two-byte UTF-8 sequence with lead `b`. -/
def decode2 (b : Nat) : List Nat → Option Nat × List Nat
  | [] => (none, [])
  | b1 :: rest =>
    if isCont b1 then (some ((b - 0xC0) * 0x40 + (b1 - 0x80)), rest)
    else (none, b1 :: rest)

/-- Last continuation byte of a three-byte sequence with lead `b` and
second byte `b1`. -/
def decode3c (b b1 : Nat) : List Nat → Option Nat × List Nat
  | [] => (none, [])
  | b2 :: rest =>
    if isCont b2 then
      (some ((b - 0xE0) * 0x1000 + (b1 - 0x80) * 0x40 + (b2 - 0x80)), rest)
    else (none, b2 :: rest)

/-- Continuation of a three-byte UTF-8 sequence with lead `b`. -/
def decode3 (b : Nat) : List Nat → Option Nat × List Nat
  | [] => (none, [])
  | b1 :: rest => if validFollow b b1 then decode3c b b1 rest else (none, b1 :: rest)

/-- Last continuation byte of a four-byte sequence. -/
def decode4cc (b b1 b2 : Nat) : List Nat → Option Nat × List Nat
  | [] => (none, [])
  | b3 :: rest =>
    if isCont b3 then
      (some ((b - 0xF0) * 0x40000 + (b1 - 0x80) * 0x1000 + (b2 - 0x80) * 0x40 +
             (b3 - 0x80)), rest)
    else (none, b3 :: rest)

/-- Third byte of a four-byte UTF-8 sequence. -/
def decode4c (b b1 : Nat) : List Nat → Option Nat × List Nat
  | [] => (none, [])
  | b2 :: rest => if isCont b2 then decode4cc b b1 b2 rest else (none, b2 :: rest)

/-- Continuation of a four-byte UTF-8 sequence with lead `b`. -/
def decode4 (b : Nat) : List Nat → Option Nat × List Nat
  | [] => (none, [])
  | b1 :: rest => if validFollow b b1 then decode4c b b1 rest else (none, b1 :: rest)

/-- One step of Rust's UTF-8 decoder on lead byte `b` followed by `bs`:
returns the decoded scalar value (or `none` for an invalid sequence) and
the bytes not consumed.  Invalid sequences consume their maximal valid
prefix, matching the substitution of maximal subparts performed by
`String::from_utf8_lossy` / `Utf8Error::error_len`. -/
def decodeOne (b : Nat) (bs : List Nat) : Option Nat × List Nat :=
  if b ≤ 0x7F then (some b, bs)
  else if b ≤ 0xC1 then (none, bs)
  else if b ≤ 0xDF then decode2 b bs
  else if b ≤ 0xEF then decode3 b bs
  else if b ≤ 0xF4 then decode4 b bs
  else (none, bs)

/-- Fuel-driven worker for `lossyDecode`; the fuel is an upper bound on the
number of decoding steps (each step consumes at least the lead byte), used
only to make the recursion structural. -/
def lossyDecodeAux : Nat → List Nat → List Nat
  | 0, _ => []
  | _, [] => []
  | fuel + 1, b :: bs =>
    (decodeOne b bs).1.getD REPLACEMENT :: lossyDecodeAux fuel (decodeOne b bs).2

/-- Rust `String::from_utf8_lossy`: decodes valid UTF-8 sequences and
substitutes U+FFFD for each invalid sequence. -/
def lossyDecode (bs : List Nat) : List Nat := lossyDecodeAux bs.length bs

/-- Fuel-driven worker for `validUtf8`. -/
def validUtf8Aux : Nat → List Nat → Bool
  | 0, _ => true
  | _, [] => true
  | fuel + 1, b :: bs =>
    (decodeOne b bs).1.isSome && validUtf8Aux fuel (decodeOne b bs).2

/-- Rust UTF-8 validity of a byte sequence (`str::from_utf8` succeeds). -/
def validUtf8 (bs : List Nat) : Bool := validUtf8Aux bs.length bs

/-- The `/` separator of path serializations, as a scalar value. -/
def SLASH : Nat := 47

/-- Modelled from the spec: the path-value type (`crate::path::IpfsPath`,
not under `src/`) — a path value is a non-empty sequence of non-empty,
slash-free segments (the spec's examples are of the form `/ipfs/Qy`);
values outside that shape are junk never produced by the parser. -/
structure IpfsPath where
  segments : List (List Nat)
deriving DecidableEq

/-- Modelled from the spec: the canonical serializer of a path value
(`IpfsPath::to_string`): each segment prefixed by a slash. -/
def IpfsPath.to_string (p : IpfsPath) : List Nat :=
  (p.segments.map (fun seg => SLASH :: seg)).flatten

/-- Splits a character sequence at every slash (the separator itself is
dropped); always returns at least one (possibly empty) piece. -/
def splitSlash : List Nat → List (List Nat)
  | [] => [[]]
  | c :: cs =>
    match splitSlash cs with
    | [] => [[]]
    | w :: ws => if c = SLASH then [] :: w :: ws else (c :: w) :: ws

/-- Modelled from the spec: the parser of a path value
(`IpfsPath::from_str`), the exact inverse of the canonical serializer: the
string must start with a slash and consist of non-empty slash-separated
segments; anything else is a decode error. -/
def IpfsPath.from_str (s : List Nat) : Except Error IpfsPath :=
  match splitSlash s with
  | [] :: seg1 :: segs =>
    if (seg1 :: segs).all (fun seg => decide (seg ≠ [])) then
      .ok ⟨seg1 :: segs⟩
    else .error Error.decode
  | _ => .error Error.decode

/-- `Repo::get_ipns` of `src/repo/mod.rs`: reads the Ipns column at the
peer's bytes (`?` propagates a store error); on a missing record returns
`none`; otherwise lossily decodes the bytes as UTF-8
(`String::from_utf8_lossy`) and parses the resulting string as a path
(`?` propagates the parse error). -/
def Repo.get_ipns (ds : DataStore) (p : PeerId) : Except Error (Option IpfsPath) :=
  match ds.getRes Column.Ipns p with
  | .error e => .error e
  | .ok none => .ok none
  | .ok (some bytes) =>
    match IpfsPath.from_str (lossyDecode bytes) with
    | .error e => .error e
    | .ok path => .ok (some path)

/-- `Repo::put_ipns` of `src/repo/mod.rs`: serializes the path to its
canonical string, and issues the data-store put of the string's UTF-8 bytes
under the peer's bytes in the Ipns column; returns the issued call
(column, key, value). -/
def Repo.put_ipnsCall (p : PeerId) (v : IpfsPath) : Column × List Nat × List Nat :=
  (Column.Ipns, p, encodeUtf8 (IpfsPath.to_string v))

/-- Lookup in the in-memory block-store state (first binding wins). -/
def memLookup : List (Cid × Block) → Cid → Option Block
  | [], _ => none
  | (k, v) :: rest, c => if k = c then some v else memLookup rest c

/-- Modelled from the spec: the in-memory block-store backend
(`src/repo/mem.rs`, not under `src/`) satisfying the `BlockStore` contract
of §4.1 — `contains`/`get` reflect the state, `put` returns the block's
Cid, none of the operations fail. -/
def memBlockStore (s : List (Cid × Block)) : BlockStore where
  initRes := .ok ()
  openRes := .ok ()
  containsRes c := .ok (memLookup s c).isSome
  getRes c := .ok (memLookup s c)
  putRes b := .ok b.cid
  removeRes _ := .ok ()

/-- Modelled from the spec: the state transition of the in-memory block
store's `put` — stores the block under its Cid, without duplication
(re-storing an already-present Cid overwrites). -/
def memPut (s : List (Cid × Block)) (b : Block) : List (Cid × Block) :=
  (b.cid, b) :: s.filter (fun kv => decide (kv.1 ≠ b.cid))

/-- A data-store key: a column together with raw key bytes. -/
abbrev DKey := Column × List Nat

/-- Lookup in the in-memory data-store state (first binding wins). -/
def dLookup : List (DKey × List Nat) → DKey → Option (List Nat)
  | [], _ => none
  | (k, v) :: rest, key => if k = key then some v else dLookup rest key

/-- Modelled from the spec: the in-memory data-store backend
(`src/repo/mem.rs`, not under `src/`) satisfying the `DataStore` contract
of §4.2. -/
def memDataStore (s : List (DKey × List Nat)) : DataStore where
  initRes := .ok ()
  openRes := .ok ()
  containsRes col k := .ok (dLookup s (col, k)).isSome
  getRes col k := .ok (dLookup s (col, k))
  putRes _ _ _ := .ok ()
  removeRes _ _ := .ok ()

/-- Modelled from the spec: the state transition of the in-memory data
store's `put` — stores the value under (column, key), idempotently. -/
def memDataPut (s : List (DKey × List Nat)) (col : Column) (k : List Nat)
    (v : List Nat) : List (DKey × List Nat) :=
  ((col, k), v) :: s.filter (fun kv => decide (kv.1 ≠ (col, k)))

theorem decodeOne_ascii (c : Nat) (h : c ≤ 0x7F) (rest : List Nat) :
    decodeOne c rest = (some c, rest) := by
  unfold decodeOne
  rw [if_pos h]

theorem decodeOne_two (c : Nat) (h1 : 0x80 ≤ c) (h2 : c ≤ 0x7FF) (rest : List Nat) :
    decodeOne (0xC0 + c / 0x40) ((0x80 + c % 0x40) :: rest) = (some c, rest) := by
  unfold decodeOne
  rw [if_neg (by omega), if_neg (by omega), if_pos (by omega)]
  simp only [decode2, isCont, decide_eq_true_eq]
  rw [if_pos (by omega)]
  simp only [Prod.mk.injEq, Option.some.injEq]
  exact ⟨by omega, trivial⟩

theorem validFollow_three (c : Nat) (h1 : 0x800 ≤ c) (h2 : c ≤ 0xFFFF)
    (hs : c < 0xD800 ∨ 0xE000 ≤ c) :
    validFollow (0xE0 + c / 0x1000) (0x80 + c / 0x40 % 0x40) = true := by
  unfold validFollow isCont
  split_ifs with ha hb hc hd <;> simp only [decide_eq_true_eq] <;> omega

theorem decodeOne_three (c : Nat) (h1 : 0x800 ≤ c) (h2 : c ≤ 0xFFFF)
    (hs : c < 0xD800 ∨ 0xE000 ≤ c) (rest : List Nat) :
    decodeOne (0xE0 + c / 0x1000)
      ((0x80 + c / 0x40 % 0x40) :: (0x80 + c % 0x40) :: rest) = (some c, rest) := by
  unfold decodeOne
  rw [if_neg (by omega), if_neg (by omega), if_neg (by omega), if_pos (by omega)]
  simp only [decode3, decode3c]
  rw [if_pos (validFollow_three c h1 h2 hs)]
  simp only [isCont, decide_eq_true_eq]
  rw [if_pos (by omega)]
  simp only [Prod.mk.injEq, Option.some.injEq]
  exact ⟨by omega, trivial⟩

theorem validFollow_four (c : Nat) (h1 : 0x10000 ≤ c) (h2 : c < 0x110000) :
    validFollow (0xF0 + c / 0x40000) (0x80 + c / 0x1000 % 0x40) = true := by
  unfold validFollow isCont
  split_ifs with ha hb hc hd <;> simp only [decide_eq_true_eq] <;> omega

theorem decodeOne_four (c : Nat) (h1 : 0x10000 ≤ c) (h2 : c < 0x110000)
    (rest : List Nat) :
    decodeOne (0xF0 + c / 0x40000)
      ((0x80 + c / 0x1000 % 0x40) :: (0x80 + c / 0x40 % 0x40) ::
        (0x80 + c % 0x40) :: rest) = (some c, rest) := by
  unfold decodeOne
  rw [if_neg (by omega), if_neg (by omega), if_neg (by omega), if_neg (by omega),
      if_pos (by omega)]
  simp only [decode4, decode4c, decode4cc]
  rw [if_pos (validFollow_four c h1 h2)]
  simp only [isCont, decide_eq_true_eq]
  rw [if_pos (by omega), if_pos (by omega)]
  simp only [Prod.mk.injEq, Option.some.injEq]
  exact ⟨by omega, trivial⟩

theorem encodeChar_decodes (c : Nat) (h : ScalarValue c) :
    ∃ b bsuf, encodeChar c = b :: bsuf ∧
      ∀ rest, decodeOne b (bsuf ++ rest) = (some c, rest) := by
  obtain ⟨hlt, hs⟩ := h
  unfold encodeChar
  split_ifs with h1 h2 h3
  · exact ⟨c, [], rfl, fun rest => decodeOne_ascii c h1 rest⟩
  · exact ⟨_, _, rfl, fun rest => decodeOne_two c (by omega) h2 rest⟩
  · exact ⟨_, _, rfl, fun rest => decodeOne_three c (by omega) h3 hs rest⟩
  · exact ⟨_, _, rfl, fun rest => decodeOne_four c (by omega) hlt rest⟩

theorem lossyDecodeAux_nil (fuel : Nat) : lossyDecodeAux fuel [] = [] := by
  cases fuel <;> rfl

theorem lossyDecodeAux_encodeUtf8 (s : List Nat) (h : ∀ c ∈ s, ScalarValue c) :
    ∀ fuel, (encodeUtf8 s).length ≤ fuel → lossyDecodeAux fuel (encodeUtf8 s) = s := by
  induction s with
  | nil => intro fuel _; exact lossyDecodeAux_nil fuel
  | cons c s' ih =>
    intro fuel hfuel
    obtain ⟨b, bsuf, hb, hdec⟩ := encodeChar_decodes c (h c (List.mem_cons_self c s'))
    have henc : encodeUtf8 (c :: s') = b :: (bsuf ++ encodeUtf8 s') := by
      simp [encodeUtf8, hb]
    rw [henc]
    rw [henc] at hfuel
    simp only [List.length_cons, List.length_append] at hfuel
    cases fuel with
    | zero => omega
    | succ f =>
      unfold lossyDecodeAux
      rw [hdec (encodeUtf8 s')]
      simp only [Option.getD_some]
      rw [ih (fun x hx => h x (List.mem_cons_of_mem c hx)) f (by omega)]

theorem lossyDecode_encodeUtf8 (s : List Nat) (h : ∀ c ∈ s, ScalarValue c) :
    lossyDecode (encodeUtf8 s) = s :=
  lossyDecodeAux_encodeUtf8 s h _ le_rfl

theorem splitSlash_shape (cs : List Nat) : ∃ w ws, splitSlash cs = w :: ws := by
  induction cs with
  | nil => exact ⟨[], [], rfl⟩
  | cons c cs ih =>
    obtain ⟨w, ws, hw⟩ := ih
    by_cases h : c = SLASH
    · refine ⟨[], w :: ws, ?_⟩
      simp [splitSlash, hw, h]
    · refine ⟨c :: w, ws, ?_⟩
      simp [splitSlash, hw, h]

theorem splitSlash_seg (seg : List Nat) (hseg : ∀ c ∈ seg, c ≠ SLASH) (r : List Nat) :
    splitSlash (seg ++ r) =
      (seg ++ (splitSlash r).headI) :: (splitSlash r).tail := by
  induction seg with
  | nil =>
    obtain ⟨w, ws, hw⟩ := splitSlash_shape r
    simp [hw]
  | cons c seg ih =>
    have hc : c ≠ SLASH := hseg c (List.mem_cons_self c seg)
    have hrest : ∀ x ∈ seg, x ≠ SLASH := fun x hx => hseg x (List.mem_cons_of_mem c hx)
    have step : splitSlash (c :: (seg ++ r)) =
        match splitSlash (seg ++ r) with
        | [] => [[]]
        | w :: ws => if c = SLASH then [] :: w :: ws else (c :: w) :: ws := rfl
    rw [List.cons_append, step, ih hrest]
    simp [hc]

theorem splitSlash_serialized (segs : List (List Nat))
    (h : ∀ seg ∈ segs, ∀ c ∈ seg, c ≠ SLASH) :
    splitSlash ((segs.map (fun seg => SLASH :: seg)).flatten) = [] :: segs := by
  induction segs with
  | nil => rfl
  | cons s1 rest ih =>
    have hs1 : ∀ c ∈ s1, c ≠ SLASH := h s1 (List.mem_cons_self s1 rest)
    have hrest : ∀ seg ∈ rest, ∀ c ∈ seg, c ≠ SLASH :=
      fun seg hseg => h seg (List.mem_cons_of_mem s1 hseg)
    have step : splitSlash (SLASH :: (s1 ++ (rest.map (fun seg => SLASH :: seg)).flatten)) =
        match splitSlash (s1 ++ (rest.map (fun seg => SLASH :: seg)).flatten) with
        | [] => [[]]
        | w :: ws => if SLASH = SLASH then [] :: w :: ws else (SLASH :: w) :: ws := rfl
    simp only [List.map_cons, List.flatten_cons, List.cons_append]
    rw [step, splitSlash_seg s1 hs1 _, ih hrest]
    simp

theorem from_str_to_string (p : IpfsPath) (hne : p.segments ≠ [])
    (hseg : ∀ seg ∈ p.segments, seg ≠ [] ∧ ∀ c ∈ seg, c ≠ SLASH) :
    IpfsPath.from_str (IpfsPath.to_string p) = .ok p := by
  unfold IpfsPath.from_str IpfsPath.to_string
  rw [splitSlash_serialized p.segments (fun seg hs => (hseg seg hs).2)]
  cases hp : p.segments with
  | nil => exact absurd hp hne
  | cons s1 rest =>
    have hall : (s1 :: rest).all (fun seg => decide (seg ≠ [])) = true := by
      rw [List.all_eq_true]
      intro seg hs
      rw [← hp] at hs
      exact decide_eq_true (hseg seg hs).1
    simp only [hall, if_true]
    congr
    exact hp.symm

theorem to_string_scalars (p : IpfsPath)
    (h : ∀ seg ∈ p.segments, ∀ c ∈ seg, ScalarValue c) :
    ∀ c ∈ IpfsPath.to_string p, ScalarValue c := by
  intro c hc
  unfold IpfsPath.to_string at hc
  rw [List.mem_flatten] at hc
  obtain ⟨l, hl, hcl⟩ := hc
  rw [List.mem_map] at hl
  obtain ⟨seg, hsegmem, rfl⟩ := hl
  rcases List.mem_cons.mp hcl with hcs | hcseg
  · subst hcs
    exact ⟨by norm_num [SLASH], Or.inl (by norm_num [SLASH])⟩
  · exact h seg hsegmem c hcseg

theorem dLookup_memDataPut (s : List (DKey × List Nat)) (col : Column)
    (k v : List Nat) : dLookup (memDataPut s col k v) (col, k) = some v := by
  simp [memDataPut, dLookup]

theorem memLookup_memPut (s : List (Cid × Block)) (b : Block) :
    memLookup (memPut s b) b.cid = some b := by
  simp [memPut, memLookup]

/-- C2: for every Cid `c` and every block-store behaviour (in particular
whether or not `c` is present), `remove_block(c)` emits `UnprovideBlock(c)`
unconditionally and before the store removal is issued, and the store
removal's result — a failure included — is returned to the caller unchanged
even though the event already fired. -/
theorem remove_block_unconditional_event (bs : BlockStore) (c : Cid) :
    (Repo.remove_block bs c).2 =
      [Repo.TraceStep.sendEvent (RepoEvent.UnprovideBlock c),
       Repo.TraceStep.storeRemove c] ∧
    (Repo.remove_block bs c).1 = bs.removeRes c :=
  ⟨rfl, rfl⟩

/-- C3: `Repo::init()` (respectively `Repo::open()`) succeeds iff both
underlying store calls succeed; when exactly one fails, that failure is
surfaced; when both fail, exactly one of the two errors is surfaced. -/
theorem init_open_success_iff (bs : BlockStore) (ds : DataStore) :
    (Repo.init bs ds = .ok () ↔ (bs.initRes = .ok () ∧ ds.initRes = .ok ())) ∧
    (∀ e, bs.initRes = .error e → ds.initRes = .ok () →
      Repo.init bs ds = .error e) ∧
    (∀ e, bs.initRes = .ok () → ds.initRes = .error e →
      Repo.init bs ds = .error e) ∧
    (∀ e1 e2, bs.initRes = .error e1 → ds.initRes = .error e2 →
      Repo.init bs ds = .error e1 ∨ Repo.init bs ds = .error e2) ∧
    (Repo.openRepo bs ds = .ok () ↔
      (bs.openRes = .ok () ∧ ds.openRes = .ok ())) ∧
    (∀ e, bs.openRes = .error e → ds.openRes = .ok () →
      Repo.openRepo bs ds = .error e) ∧
    (∀ e, bs.openRes = .ok () → ds.openRes = .error e →
      Repo.openRepo bs ds = .error e) ∧
    (∀ e1 e2, bs.openRes = .error e1 → ds.openRes = .error e2 →
      Repo.openRepo bs ds = .error e1 ∨ Repo.openRepo bs ds = .error e2) := by
  unfold Repo.init Repo.openRepo
  rcases h1 : bs.initRes with e1 | u1 <;> rcases h2 : ds.initRes with e2 | u2 <;>
    rcases h3 : bs.openRes with e3 | u3 <;> rcases h4 : ds.openRes with e4 | u4 <;>
    simp_all

/-- Witness for C3 at a concrete input: both in-memory stores initialise
successfully, so `init` succeeds. -/
theorem init_open_success_iff_witness :
    Repo.init (memBlockStore []) (memDataStore []) = .ok () :=
  (init_open_success_iff (memBlockStore []) (memDataStore [])).1.mpr ⟨rfl, rfl⟩

/-- C9: whenever both stores' `init` (respectively `open`) calls fail, the
aggregation deterministically surfaces the block store's error, never the
data store's. -/
theorem init_open_both_fail_block_error (bs : BlockStore) (ds : DataStore)
    (e1 e2 e3 e4 : Error) (h1 : bs.initRes = .error e1)
    (h2 : ds.initRes = .error e2) (h3 : bs.openRes = .error e3)
    (h4 : ds.openRes = .error e4) :
    Repo.init bs ds = .error e1 ∧ Repo.openRepo bs ds = .error e3 := by
  unfold Repo.init Repo.openRepo
  rw [h1, h3]
  exact ⟨rfl, rfl⟩

/-- Witness for C9 at a concrete input: distinct errors in all four store
calls; the block store's errors win. -/
theorem init_open_both_fail_block_error_witness :
    Repo.init
      ⟨.error (.storage 0), .error (.storage 1), fun _ => .ok false,
       fun _ => .ok none, fun b => .ok b.cid, fun _ => .ok ()⟩
      ⟨.error (.storage 2), .error (.storage 3), fun _ _ => .ok false,
       fun _ _ => .ok none, fun _ _ _ => .ok (), fun _ _ => .ok ()⟩ =
      .error (.storage 0) ∧
    Repo.openRepo
      ⟨.error (.storage 0), .error (.storage 1), fun _ => .ok false,
       fun _ => .ok none, fun b => .ok b.cid, fun _ => .ok ()⟩
      ⟨.error (.storage 2), .error (.storage 3), fun _ _ => .ok false,
       fun _ _ => .ok none, fun _ _ _ => .ok (), fun _ _ => .ok ()⟩ =
      .error (.storage 1) :=
  init_open_both_fail_block_error _ _ _ _ _ _ rfl rfl rfl rfl

/-- C4: for every block `b` and every prior in-memory store state,
`put_block(b)` succeeds returning `cid(b)`, and `get_block(cid(b))` against
the resulting state resolves to `b` while emitting no event (in particular
no `WantBlock`). -/
theorem put_block_then_get_block (s : List (Cid × Block)) (b : Block) :
    Repo.put_block (memBlockStore s) b =
      (.ok b.cid, [RepoEvent.ProvideBlock b.cid]) ∧
    Repo.get_block (memBlockStore (memPut s b)) b.cid =
      ⟨Repo.BlockOutcome.ok b, [], true⟩ := by
  refine ⟨rfl, ?_⟩
  simp [Repo.get_block, Repo.blockFutureAwait, memBlockStore, memLookup_memPut]

/-- C5: for every Cid `c` the in-memory block store does not contain,
`get_block(c)` emits exactly one `WantBlock(c)` and then suspends awaiting
local availability. -/
theorem get_block_absent_wantblock (s : List (Cid × Block)) (c : Cid)
    (h : memLookup s c = none) :
    Repo.get_block (memBlockStore s) c =
      ⟨Repo.BlockOutcome.suspended, [RepoEvent.WantBlock c], true⟩ := by
  simp [Repo.get_block, Repo.blockFutureAwait, memBlockStore, h]

/-- Witness for C5 at a concrete input: the empty store and Cid `[7]`. -/
theorem get_block_absent_wantblock_witness :
    Repo.get_block (memBlockStore []) ⟨[7]⟩ =
      ⟨Repo.BlockOutcome.suspended, [RepoEvent.WantBlock ⟨[7]⟩], true⟩ :=
  get_block_absent_wantblock [] ⟨[7]⟩ rfl

/-- C6: `put_block(b)` emits `ProvideBlock(cid)` and returns the Cid
exactly when the store's put succeeds; when the store put fails, it returns
that error and emits no event. -/
theorem put_block_event_policy (bs : BlockStore) (b : Block) :
    (∀ cid, bs.putRes b = .ok cid →
      Repo.put_block bs b = (.ok cid, [RepoEvent.ProvideBlock cid])) ∧
    (∀ e, bs.putRes b = .error e → Repo.put_block bs b = (.error e, [])) := by
  constructor <;> intro x hx <;> simp [Repo.put_block, hx]

/-- Witness for C6 at a concrete input: a put into the in-memory store
succeeds and emits `ProvideBlock`. -/
theorem put_block_event_policy_witness :
    Repo.put_block (memBlockStore []) ⟨[1]⟩ =
      (.ok (Block.cid ⟨[1]⟩), [RepoEvent.ProvideBlock (Block.cid ⟨[1]⟩)]) :=
  (put_block_event_policy (memBlockStore []) ⟨[1]⟩).1 (Block.cid ⟨[1]⟩) rfl

/-- C7: `put_ipns(p, v)` issues a data-store put of the canonical UTF-8
serialization of `v` under the peer's key in the Ipns column, and
`get_ipns(p)` against the resulting state, with no intervening mutation,
returns `Some v` — for every path value `v` (non-empty, slash-free
segments of scalar values, i.e. every value the path type can hold). -/
theorem put_ipns_get_ipns_roundtrip (s : List (DKey × List Nat)) (p : PeerId)
    (v : IpfsPath) (hne : v.segments ≠ [])
    (hseg : ∀ seg ∈ v.segments, seg ≠ [] ∧ ∀ c ∈ seg, c ≠ SLASH ∧ ScalarValue c) :
    Repo.put_ipnsCall p v = (Column.Ipns, p, encodeUtf8 (IpfsPath.to_string v)) ∧
    Repo.get_ipns
      (memDataStore (memDataPut s Column.Ipns p
        (encodeUtf8 (IpfsPath.to_string v)))) p = .ok (some v) := by
  refine ⟨rfl, ?_⟩
  have hscal : ∀ c ∈ IpfsPath.to_string v, ScalarValue c :=
    to_string_scalars v (fun seg hs c hc => ((hseg seg hs).2 c hc).2)
  have hld : lossyDecode (encodeUtf8 (IpfsPath.to_string v)) =
      IpfsPath.to_string v := lossyDecode_encodeUtf8 _ hscal
  have hfs : IpfsPath.from_str (IpfsPath.to_string v) = .ok v :=
    from_str_to_string v hne
      (fun seg hs => ⟨(hseg seg hs).1, fun c hc => ((hseg seg hs).2 c hc).1⟩)
  simp [Repo.get_ipns, memDataStore, dLookup_memDataPut, hld, hfs]

/-- Witness for C7 at a concrete input: the path value `/ipfs/Qy` and peer
`[1, 2]`. -/
theorem put_ipns_get_ipns_roundtrip_witness :
    Repo.get_ipns
      (memDataStore (memDataPut [] Column.Ipns [1, 2]
        (encodeUtf8 (IpfsPath.to_string ⟨[[105, 112, 102, 115], [81, 121]]⟩))))
      [1, 2] = .ok (some ⟨[[105, 112, 102, 115], [81, 121]]⟩) :=
  (put_ipns_get_ipns_roundtrip [] [1, 2] ⟨[[105, 112, 102, 115], [81, 121]]⟩
    (by decide) (by decide)).2

/-- C8: for every base path, `Repo::new` binds the block store to the
`"blockstore"` sub-path and the data store to the `"datastore"` sub-path of
the base path, and returns the repo handle together with the consuming end
of the repo's own event channel. -/
theorem repo_new_subpaths (path : PathBuf) :
    (Repo.new path).1.block_store_path = path ++ ["blockstore"] ∧
    (Repo.new path).1.data_store_path = path ++ ["datastore"] ∧
    (Repo.new path).2.ch = (Repo.new path).1.events.ch :=
  ⟨rfl, rfl, rfl⟩

/-- C10: for every Cid `c`, if the containment check inside `get_block(c)`
fails with a storage error, `get_block` returns that error immediately: no
event is emitted and the availability wait (which performs the store `get`)
is never reached. -/
theorem get_block_contains_error (bs : BlockStore) (c : Cid) (e : Error)
    (h : bs.containsRes c = .error e) :
    Repo.get_block bs c = ⟨Repo.BlockOutcome.err e, [], false⟩ := by
  simp [Repo.get_block, h]

/-- Witness for C10 at a concrete input: a store whose containment check
always fails with storage error 5. -/
theorem get_block_contains_error_witness :
    Repo.get_block
      ⟨.ok (), .ok (), fun _ => .error (.storage 5), fun _ => .ok none,
       fun b => .ok b.cid, fun _ => .ok ()⟩ ⟨[3]⟩ =
      ⟨Repo.BlockOutcome.err (.storage 5), [], false⟩ :=
  get_block_contains_error _ ⟨[3]⟩ (.storage 5) rfl

/-- C1 counterexample: the stored bytes of `/ipfs/Qy` followed by the byte
`0xFF` are not valid UTF-8, yet `get_ipns` succeeds, silently returning the
lossily-decoded path whose last segment ends in U+FFFD — it does not fail
with a decode error. -/
theorem get_ipns_lossy_counterexample :
    validUtf8 (encodeUtf8
      (IpfsPath.to_string ⟨[[105, 112, 102, 115], [81, 121]]⟩) ++ [0xFF]) = false ∧
    Repo.get_ipns
      (memDataStore [((Column.Ipns, [1]),
        encodeUtf8 (IpfsPath.to_string ⟨[[105, 112, 102, 115], [81, 121]]⟩)
          ++ [0xFF])]) [1] =
      .ok (some ⟨[[105, 112, 102, 115], [81, 121, 0xFFFD]]⟩) :=
  ⟨rfl, rfl⟩

/-- C1 amended: `get_ipns` lossily decodes the stored bytes (substituting
U+FFFD for invalid UTF-8 sequences) and fails with a decode error exactly
when the substituted string does not parse as a path value; invalid UTF-8
alone causes no error — when the substituted string parses, the substituted
path is returned. -/
theorem get_ipns_decode_amended (s : List (DKey × List Nat)) (p : PeerId)
    (bytes : List Nat) (h : dLookup s (Column.Ipns, p) = some bytes) :
    (IpfsPath.from_str (lossyDecode bytes) = .error Error.decode →
      Repo.get_ipns (memDataStore s) p = .error Error.decode) ∧
    (∀ v, IpfsPath.from_str (lossyDecode bytes) = .ok v →
      Repo.get_ipns (memDataStore s) p = .ok (some v)) := by
  constructor
  · intro hp
    simp [Repo.get_ipns, memDataStore, h, hp]
  · intro v hp
    simp [Repo.get_ipns, memDataStore, h, hp]

/-- Witness for the amended C1 at a concrete input: the stored byte `0xFF`
lossily decodes to a lone U+FFFD, which does not parse, so `get_ipns`
fails with a decode error. -/
theorem get_ipns_decode_amended_witness :
    Repo.get_ipns (memDataStore [((Column.Ipns, [1]), [0xFF])]) [1] =
      .error Error.decode :=
  (get_ipns_decode_amended [((Column.Ipns, [1]), [0xFF])] [1] [0xFF] rfl).1 rfl
